import Mathlib

/-!
Verification development for the PAGASA RSS feed generator
(`generate_rss.py`).  The Python source is shallowly embedded: each
Python function becomes a total Lean function over `String` / explicit
tree types, and the claims about the program are settled as theorems
about these definitions.

Conventions of the embedding:
* Python strings are Lean `String`s, usually manipulated as `List Char`.
* `re` operations are modelled by deterministic character scanners that
  implement the concrete patterns appearing in the source
  (`\s+`, `<br\s*/?>`, `(?:No|Number)\.?\s*(\d+)`).
* `xml.etree.ElementTree.fromstring` is modelled by a recursive-descent
  XML well-formedness parser over the fragment language relevant here
  (elements, attributes, character data, the five predefined XML
  entities, numeric character references, comments, processing
  instructions and CDATA sections).
* `html.unescape` is modelled with a representative subset of the HTML5
  named-reference table; the spec itself (section 9) leaves the exact
  table open, and no theorem below depends on the table's extent.
-/

set_option maxRecDepth 10000

/-! ## Python character classes and `str` primitives -/

/-- Whitespace recognised by Python's `\s` (ASCII part) and `str.strip`. -/
def pyWs (c : Char) : Bool :=
  c = ' ' || c = '\t' || c = '\n' || c = '\r' || c = '\x0b' || c = '\x0c'

/-- Model of Python `str.strip()` on a character list. -/
def pyStripL (l : List Char) : List Char :=
  ((l.dropWhile pyWs).reverse.dropWhile pyWs).reverse

/-- Model of Python `str.strip()`. -/
def pyStrip (s : String) : String :=
  String.mk (pyStripL s.data)

/-- Model of Python `str.upper()` (ASCII case mapping, as used on slug
strings). -/
def pyUpper (s : String) : String :=
  String.mk (s.data.map Char.toUpper)

theorem length_dropWhile_le (p : Char → Bool) :
    ∀ l : List Char, (l.dropWhile p).length ≤ l.length := by
  intro l
  induction l with
  | nil => simp [List.dropWhile]
  | cons c r ih =>
    simp only [List.dropWhile]
    cases p c <;> simp <;> omega

/-- Fuelled worker for `collapseL`; every recursive call strictly
shortens the input, so fuel `length + 1` never runs out. -/
def collapseF : Nat → List Char → List Char
  | _, [] => []
  | 0, l => l
  | fuel + 1, c :: r =>
    if pyWs c then ' ' :: collapseF fuel (r.dropWhile pyWs)
    else c :: collapseF fuel r

/-- Model of `re.sub(r'\s+', ' ', s)`: collapse every whitespace run to a
single space. -/
def collapseL (l : List Char) : List Char := collapseF (l.length + 1) l

/-- Recognise one occurrence of the pattern `<br\s*/?>` (case-insensitive)
at the head of the list; return the remainder after the match. -/
def matchBr (cs : List Char) : Option (List Char) :=
  match cs with
  | c0 :: c1 :: c2 :: r =>
    if c0 = '<' && (c1 = 'b' || c1 = 'B') && (c2 = 'r' || c2 = 'R') then
      match r.dropWhile pyWs with
      | '/' :: '>' :: rest => some rest
      | '>' :: rest => some rest
      | _ => none
    else none
  | _ => none

theorem matchBr_length {cs rest : List Char} (h : matchBr cs = some rest) :
    rest.length < cs.length := by
  rcases cs with _ | ⟨c0, _ | ⟨c1, _ | ⟨c2, r⟩⟩⟩ <;>
    simp only [matchBr] at h
  · exact absurd h (by simp)
  · exact absurd h (by simp)
  · exact absurd h (by simp)
  · have hd := length_dropWhile_le pyWs r
    split at h
    · split at h
      · rename_i x rs heq
        injection h with h'
        subst h'
        have h2 : (r.dropWhile pyWs).length = rs.length + 2 := by
          rw [heq]; simp
        simp only [List.length_cons]
        omega
      · rename_i x rs heq
        injection h with h'
        subst h'
        have h2 : (r.dropWhile pyWs).length = rs.length + 1 := by
          rw [heq]; simp
        simp only [List.length_cons]
        omega
      · exact absurd h (by simp)
    · exact absurd h (by simp)

/-- Model of `re.sub(r'<br\s*/?>', '<br />', s, flags=re.IGNORECASE)`:
rewrite every line-break tag variant to the canonical `<br />`. -/
def brCanonF : Nat → List Char → List Char
  | _, [] => []
  | 0, l => l
  | fuel + 1, c :: r =>
    match matchBr (c :: r) with
    | some rest => '<' :: 'b' :: 'r' :: ' ' :: '/' :: '>' :: brCanonF fuel rest
    | none => c :: brCanonF fuel r

def brCanonL (l : List Char) : List Char := brCanonF (l.length + 1) l

/-- Model of Python `s.replace('</br>', '')`: delete every (case-sensitive)
occurrence of the illegal closing tag. -/
def replaceBrCloseL : List Char → List Char
  | '<' :: '/' :: 'b' :: 'r' :: '>' :: r => replaceBrCloseL r
  | c :: r => c :: replaceBrCloseL r
  | [] => []

/-- Embedding of `normalize_html` from `generate_rss.py`: empty input is
returned unchanged; otherwise strip, collapse whitespace runs to single
spaces, canonicalise `<br>` variants to `<br />` and delete `</br>`. -/
def normalize_html (html : String) : String :=
  if html = "" then ""
  else String.mk (replaceBrCloseL (brCanonL (collapseL (pyStripL html.data))))

/-- Model of `re.split(r'(?i)<br\s*/?>', s)` on a character list.  The
result always has at least one segment, mirroring `re.split` which never
returns an empty list. -/
def splitBrF : Nat → List Char → List (List Char)
  | _, [] => [[]]
  | 0, l => [l]
  | fuel + 1, c :: r =>
    match matchBr (c :: r) with
    | some rest => [] :: splitBrF fuel rest
    | none =>
      match splitBrF fuel r with
      | s :: ss => (c :: s) :: ss
      | [] => [[c]]

def splitBrL (l : List Char) : List (List Char) := splitBrF (l.length + 1) l

/-- Model of `re.split(r'(?i)<br\s*/?>', s)`. -/
def splitBr (s : String) : List String :=
  (splitBrL s.data).map String.mk

theorem splitBrF_ne_nil (fuel : Nat) : ∀ l : List Char, splitBrF fuel l ≠ [] := by
  induction fuel with
  | zero =>
    intro l
    rcases l with _ | ⟨c, r⟩ <;> simp [splitBrF]
  | succ f ih =>
    intro l
    rcases l with _ | ⟨c, r⟩
    · simp [splitBrF]
    · rw [splitBrF]
      cases matchBr (c :: r) with
      | some rest => simp
      | none =>
        cases hs : splitBrF f r with
        | nil => exact absurd hs (ih r)
        | cons s ss => simp

theorem splitBrL_ne_nil (l : List Char) : splitBrL l ≠ [] :=
  splitBrF_ne_nil _ l

theorem splitBr_ne_nil (s : String) : splitBr s ≠ [] := by
  simp only [splitBr]
  intro hc
  exact splitBrL_ne_nil s.data (by simpa using hc)

/-! ## Model of `html.unescape` -/

/-- Is the scalar value valid for a Lean/Unicode `Char` and not a
surrogate?  Mirrors the acceptance test of `html.unescape` for numeric
character references (invalid values are replaced by U+FFFD there). -/
def okScalar (n : Nat) : Bool :=
  decide ((n < 0xd800 ∨ (0xe000 ≤ n ∧ n ≤ 0x10ffff)) ∧ n ≠ 0)

/-- Character for one decimal digit value (0–9). -/
def digitChar : Nat → Char
  | 0 => '0' | 1 => '1' | 2 => '2' | 3 => '3' | 4 => '4'
  | 5 => '5' | 6 => '6' | 7 => '7' | 8 => '8' | _ => '9'

def isHexDigit (c : Char) : Bool :=
  c.isDigit || ('a' ≤ c && c ≤ 'f') || ('A' ≤ c && c ≤ 'F')

def hexVal (c : Char) : Nat :=
  if c.isDigit then c.toNat - 48
  else if 'a' ≤ c && c ≤ 'f' then c.toNat - 87
  else c.toNat - 55

def decVal (c : Char) : Nat := c.toNat - 48

def foldDigits (base : Nat) (ds : List Char) (val : Char → Nat) : Nat :=
  ds.foldl (fun acc c => acc * base + val c) 0

/-- Character produced for a numeric HTML character reference:
invalid scalars become U+FFFD, as in `html.unescape`. -/
def htmlNumChar (n : Nat) : Char :=
  if okScalar n then Char.ofNat n else '�'

/-- Representative subset of the HTML5 named-reference table (entries
with the terminating semicolon).  The full CPython table has ~2200
entries; the spec (section 9) treats the exact table as an open point,
and no theorem below depends on its extent. -/
def namedRefSemi (name : String) : Option Char :=
  if name = "amp" then some '&'
  else if name = "lt" then some '<'
  else if name = "gt" then some '>'
  else if name = "quot" then some '"'
  else if name = "apos" then some '\''
  else if name = "nbsp" then some '\u00A0'
  else if name = "copy" then some '©'
  else if name = "deg" then some '°'
  else if name = "hellip" then some '…'
  else if name = "ndash" then some '–'
  else if name = "mdash" then some '—'
  else if name = "rsquo" then some '’'
  else if name = "lsquo" then some '‘'
  else none

/-- Legacy HTML named references that are recognised even without the
terminating semicolon (longest-prefix match); returns the decoded
character and the number of name characters consumed. -/
def namedRefBare (letters : List Char) : Option (Char × Nat) :=
  if letters.take 4 = ['q', 'u', 'o', 't'] then some ('"', 4)
  else if letters.take 4 = ['Q', 'U', 'O', 'T'] then some ('"', 4)
  else if letters.take 3 = ['a', 'm', 'p'] then some ('&', 3)
  else if letters.take 3 = ['A', 'M', 'P'] then some ('&', 3)
  else if letters.take 2 = ['l', 't'] then some ('<', 2)
  else if letters.take 2 = ['L', 'T'] then some ('<', 2)
  else if letters.take 2 = ['g', 't'] then some ('>', 2)
  else if letters.take 2 = ['G', 'T'] then some ('>', 2)
  else none

/-- Drop one leading semicolon if present (the optional `;` terminator of
an HTML character reference). -/
def stripSemi : List Char → List Char
  | ';' :: t => t
  | l => l

theorem stripSemi_length (l : List Char) : (stripSemi l).length ≤ l.length := by
  rcases l with _ | ⟨c, t⟩
  · simp [stripSemi]
  · by_cases hc : c = ';'
    · subst hc; simp [stripSemi]
    · have : stripSemi (c :: t) = c :: t := by
        unfold stripSemi
        split
        · rename_i ht
          injection ht with h1 h2
          exact absurd h1 (by exact hc)
        · rfl
      rw [this]

/-- Numeric character reference body: one or more digits of the given
class, an optional semicolon. -/
def numRefPart (pred : Char → Bool) (base : Nat) (valf : Char → Nat)
    (l : List Char) : Option (List Char × List Char) :=
  if l.takeWhile pred = [] then none
  else some ([htmlNumChar (foldDigits base (l.takeWhile pred) valf)],
    stripSemi (l.dropWhile pred))

theorem numRefPart_length {pred base valf} {l cs rest : List Char}
    (h : numRefPart pred base valf l = some (cs, rest)) :
    rest.length ≤ l.length := by
  unfold numRefPart at h
  split at h
  · exact absurd h (by simp)
  · simp only [Option.some.injEq, Prod.mk.injEq] at h
    obtain ⟨h1, h2⟩ := h
    subst h2
    calc (stripSemi (l.dropWhile pred)).length
        ≤ (l.dropWhile pred).length := stripSemi_length _
      _ ≤ l.length := length_dropWhile_le _ _

def alnumChar (c : Char) : Bool := c.isAlpha || c.isDigit

/-- Bare (semicolonless) named-reference lookup step. -/
def bareRefPart (letters r : List Char) : Option (List Char × List Char) :=
  match namedRefBare letters with
  | some (c, k) => some ([c], r.drop k)
  | none => none

theorem bareRefPart_length {letters r cs rest : List Char}
    (h : bareRefPart letters r = some (cs, rest)) : rest.length ≤ r.length := by
  unfold bareRefPart at h
  split at h
  · simp only [Option.some.injEq, Prod.mk.injEq] at h
    obtain ⟨h1, h2⟩ := h
    subst h2
    rw [List.length_drop]; omega
  · exact absurd h (by simp)

/-- Named character reference body. -/
def namedPart (r : List Char) : Option (List Char × List Char) :=
  if r.takeWhile alnumChar = [] then none
  else
    match r.dropWhile alnumChar with
    | ';' :: t =>
      match namedRefSemi (String.mk (r.takeWhile alnumChar)) with
      | some c => some ([c], t)
      | none => bareRefPart (r.takeWhile alnumChar) r
    | _ => bareRefPart (r.takeWhile alnumChar) r

theorem namedPart_length {r cs rest : List Char}
    (h : namedPart r = some (cs, rest)) : rest.length ≤ r.length := by
  unfold namedPart at h
  have hdw := length_dropWhile_le alnumChar r
  split at h
  · exact absurd h (by simp)
  · split at h
    · rename_i t ht
      split at h
      · simp only [Option.some.injEq, Prod.mk.injEq] at h
        obtain ⟨h1, h2⟩ := h
        have hlen : (r.dropWhile alnumChar).length = t.length + 1 := by
          rw [ht]; simp
        rw [← h2]
        omega
      · exact bareRefPart_length h
    · exact bareRefPart_length h

/-- Decode one HTML character reference following a `&`; returns the
decoded characters and the remaining input, or `none` when the text
after the ampersand is not a recognised reference (in which case
`html.unescape` keeps the ampersand literally). -/
def decodeHtmlRef (r : List Char) : Option (List Char × List Char) :=
  match r with
  | c :: rest =>
    if c = '#' then
      match rest with
      | x :: rest2 =>
        if x = 'x' || x = 'X' then numRefPart isHexDigit 16 hexVal rest2
        else numRefPart Char.isDigit 10 decVal rest
      | [] => none
    else namedPart r
  | [] => none

theorem decodeHtmlRef_length {r : List Char} {cs rest : List Char}
    (h : decodeHtmlRef r = some (cs, rest)) : rest.length ≤ r.length := by
  unfold decodeHtmlRef at h
  split at h
  · rename_i c rest0
    split at h
    · split at h
      · rename_i x rest2
        split at h
        · have := numRefPart_length h
          simp only [List.length_cons]
          omega
        · have := numRefPart_length h
          simp only [List.length_cons] at this ⊢
          omega
      · exact absurd h (by simp)
    · exact namedPart_length h
  · exact absurd h (by simp)

/-- Model of `html.unescape` on a character list: replace recognised
HTML character references by their Unicode characters, leave everything
else (including bare ampersands) untouched. -/
def unescapeF : Nat → List Char → List Char
  | _, [] => []
  | 0, l => l
  | fuel + 1, c :: r =>
    if c = '&' then
      match decodeHtmlRef r with
      | some (cs, rest) => cs ++ unescapeF fuel rest
      | none => '&' :: unescapeF fuel r
    else c :: unescapeF fuel r

def unescapeL (l : List Char) : List Char := unescapeF (l.length + 1) l

/-- Model of `html.unescape`. -/
def unescape (s : String) : String :=
  String.mk (unescapeL s.data)

/-! ## XML element trees (model of `xml.etree.ElementTree.Element`)

An element has a tag, an attribute list, a leading text (Python `text`,
with `None` modelled as the empty string) and a list of children, each
paired with its trailing text (Python `tail`). -/

mutual
inductive XElem : Type where
  | mk : String → List (String × String) → String → XKids → XElem
inductive XKids : Type where
  | nil : XKids
  | cons : XElem → String → XKids → XKids
end

def XElem.tag : XElem → String
  | .mk t _ _ _ => t

def XElem.attrs : XElem → List (String × String)
  | .mk _ a _ _ => a

def XElem.text : XElem → String
  | .mk _ _ s _ => s

def XElem.kids : XElem → XKids
  | .mk _ _ _ k => k

/-- Children of an element as a plain list with their tails. -/
def XKids.toList : XKids → List (XElem × String)
  | .nil => []
  | .cons e t k => (e, t) :: k.toList

/-- Wrap a list of elements as children with empty tails (`SubElement`
leaves `tail` unset). -/
def kidsOfList : List XElem → XKids
  | [] => .nil
  | e :: es => .cons e "" (kidsOfList es)

/-! ## XML parser (model of `xml.etree.ElementTree.fromstring`)

A recursive-descent well-formedness parser for the XML fragment
language: elements with attributes, character data with the five
predefined entities and numeric character references, comments,
processing instructions and CDATA sections.  Anything outside this
language (notably a bare `&`, an undefined named entity such as
`&nbsp;`, an unclosed tag or a stray `]]>` in character data) is a
parse error, mirroring expat's behaviour. -/

/-- Whitespace as defined by the XML specification. -/
def xmlWs (c : Char) : Bool :=
  c = ' ' || c = '\t' || c = '\n' || c = '\r'

def isNameStart (c : Char) : Bool :=
  c.isAlpha || c = '_' || c = ':' || c.toNat ≥ 0x80

def isNameChar (c : Char) : Bool :=
  isNameStart c || c.isDigit || c = '-' || c = '.'

/-- The five predefined XML entities; everything else is undefined for
an XML parser without a DTD. -/
def xmlPredef (name : String) : Option Char :=
  if name = "amp" then some '&'
  else if name = "lt" then some '<'
  else if name = "gt" then some '>'
  else if name = "quot" then some '"'
  else if name = "apos" then some '\''
  else none

/-- Value of one XML numeric or predefined entity reference following
`&`; returns the character and the input after the closing `;`.
Undefined named entities yield `none` (a parse error), which is exactly
what makes `&nbsp;` fail in `fromstring`. -/
def decodeXmlEntity (r : List Char) : Option (Char × List Char) :=
  match r with
  | '#' :: 'x' :: rest =>
    match rest.takeWhile isHexDigit with
    | [] => none
    | ds =>
      match rest.dropWhile isHexDigit with
      | ';' :: t =>
        if okScalar (foldDigits 16 ds hexVal) then
          some (Char.ofNat (foldDigits 16 ds hexVal), t)
        else none
      | _ => none
  | '#' :: rest =>
    match rest.takeWhile Char.isDigit with
    | [] => none
    | ds =>
      match rest.dropWhile Char.isDigit with
      | ';' :: t =>
        if okScalar (foldDigits 10 ds decVal) then
          some (Char.ofNat (foldDigits 10 ds decVal), t)
        else none
      | _ => none
  | _ =>
    match r.takeWhile isNameChar with
    | [] => none
    | name =>
      match r.dropWhile isNameChar with
      | ';' :: t =>
        match xmlPredef (String.mk name) with
        | some c => some (c, t)
        | none => none
      | _ => none

theorem decodeXmlEntity_length {r : List Char} {c : Char} {rest : List Char}
    (h : decodeXmlEntity r = some (c, rest)) : rest.length ≤ r.length := by
  unfold decodeXmlEntity at h
  split at h
  · rename_i rest0
    split at h
    · exact absurd h (by simp)
    · split at h
      · rename_i ds t ht
        split at h
        · simp only [Option.some.injEq, Prod.mk.injEq] at h
          obtain ⟨h1, h2⟩ := h
          have hdw := length_dropWhile_le isHexDigit rest0
          have : (rest0.dropWhile isHexDigit).length = t.length + 1 := by
            rw [ht]; simp
          rw [← h2]
          simp only [List.length_cons]
          omega
        · exact absurd h (by simp)
      · exact absurd h (by simp)
  · rename_i rest0 hne
    split at h
    · exact absurd h (by simp)
    · split at h
      · rename_i ds t ht
        split at h
        · simp only [Option.some.injEq, Prod.mk.injEq] at h
          obtain ⟨h1, h2⟩ := h
          have hdw := length_dropWhile_le Char.isDigit rest0
          have : (rest0.dropWhile Char.isDigit).length = t.length + 1 := by
            rw [ht]; simp
          rw [← h2]
          simp only [List.length_cons]
          omega
        · exact absurd h (by simp)
      · exact absurd h (by simp)
  · split at h
    · exact absurd h (by simp)
    · split at h
      · rename_i hx ds t ht
        have hdw := length_dropWhile_le isNameChar r
        have hlen : (r.dropWhile isNameChar).length = t.length + 1 := by
          rw [ht]; simp
        split at h
        · simp only [Option.some.injEq, Prod.mk.injEq] at h
          obtain ⟨h1, h2⟩ := h
          rw [← h2]
          omega
        · exact absurd h (by simp)
      · exact absurd h (by simp)

/-- Is `p` a prefix of `l`? -/
def isPref : List Char → List Char → Bool
  | [], _ => true
  | _ :: _, [] => false
  | p :: ps, c :: cs => p = c && isPref ps cs

/-- Skip an XML comment body after `<!--`: consume up to and including
`-->`; `--` inside a comment is a well-formedness error, as for expat. -/
def skipComment : List Char → Option (List Char)
  | [] => none
  | c :: r =>
    if c = '-' && isPref ['-', '>'] r then some (r.drop 2)
    else if c = '-' && isPref ['-'] r then none
    else skipComment r

theorem skipComment_length {cs r : List Char} (h : skipComment cs = some r) :
    r.length ≤ cs.length := by
  induction cs generalizing r with
  | nil => rw [skipComment] at h; exact absurd h (by simp)
  | cons c rest ih =>
    rw [skipComment] at h
    split at h
    · injection h with h'
      subst h'
      have : (rest.drop 2).length ≤ rest.length := by rw [List.length_drop]; omega
      simp only [List.length_cons]
      omega
    · split at h
      · exact absurd h (by simp)
      · have := ih h
        simp only [List.length_cons]
        omega

/-- Take the contents of a CDATA section after `<![CDATA[` up to `]]>`. -/
def takeCData : List Char → Option (List Char × List Char)
  | [] => none
  | c :: r =>
    if c = ']' && isPref [']', '>'] r then some ([], r.drop 2)
    else
      match takeCData r with
      | some (t, rest) => some (c :: t, rest)
      | none => none

theorem takeCData_length {cs t rest : List Char}
    (h : takeCData cs = some (t, rest)) : rest.length ≤ cs.length := by
  induction cs generalizing t rest with
  | nil => rw [takeCData] at h; exact absurd h (by simp)
  | cons c r ih =>
    rw [takeCData] at h
    split at h
    · simp only [Option.some.injEq, Prod.mk.injEq] at h
      obtain ⟨h1, h2⟩ := h
      subst h2
      have : (r.drop 2).length ≤ r.length := by rw [List.length_drop]; omega
      simp only [List.length_cons]
      omega
    · split at h
      · rename_i t0 rest0 heq
        simp only [Option.some.injEq, Prod.mk.injEq] at h
        obtain ⟨h1, h2⟩ := h
        subst h2
        have := ih heq
        simp only [List.length_cons]
        omega
      · exact absurd h (by simp)

/-- Skip a processing instruction body after `<?` up to `?>`. -/
def skipProcInst : List Char → Option (List Char)
  | [] => none
  | c :: r =>
    if c = '?' && isPref ['>'] r then some (r.drop 1)
    else skipProcInst r

theorem skipProcInst_length {cs r : List Char}
    (h : skipProcInst cs = some r) : r.length ≤ cs.length := by
  induction cs generalizing r with
  | nil => rw [skipProcInst] at h; exact absurd h (by simp)
  | cons c rest ih =>
    rw [skipProcInst] at h
    split at h
    · injection h with h'
      subst h'
      have : (rest.drop 1).length ≤ rest.length := by rw [List.length_drop]; omega
      simp only [List.length_cons]
      omega
    · have := ih h
      simp only [List.length_cons]
      omega

/-- Scan XML character data: decode entity references, skip comments and
processing instructions, inline CDATA contents, and stop at a `<` that
opens a tag (or at end of input).  Errors (`none`): bare or undefined
entity references, `]]>` in character data, unterminated comment /
CDATA / processing instruction. -/
def scanTextF : Nat → List Char → Option (List Char × List Char)
  | _, [] => some ([], [])
  | 0, _ => none
  | fuel + 1, c :: r =>
    if c = '<' then
      if isPref ['!', '-', '-'] r then
        match skipComment (r.drop 3) with
        | some r2 => scanTextF fuel r2
        | none => none
      else if isPref ['!', '[', 'C', 'D', 'A', 'T', 'A', '['] r then
        match takeCData (r.drop 8) with
        | some (t, r2) =>
          match scanTextF fuel r2 with
          | some (t2, rest) => some (t ++ t2, rest)
          | none => none
        | none => none
      else if isPref ['?'] r then
        match skipProcInst (r.drop 1) with
        | some r2 => scanTextF fuel r2
        | none => none
      else some ([], c :: r)
    else if c = '&' then
      match decodeXmlEntity r with
      | some (ch, r2) =>
        match scanTextF fuel r2 with
        | some (t2, rest) => some (ch :: t2, rest)
        | none => none
      | none => none
    else if c = ']' && isPref [']', '>'] r then none
    else
      match scanTextF fuel r with
      | some (t2, rest) => some (c :: t2, rest)
      | none => none

def scanText (cs : List Char) : Option (List Char × List Char) :=
  scanTextF (cs.length + 1) cs

/-- Scan an attribute value up to the closing quote `q`.  A literal `<`
or a bare/undefined entity reference is a well-formedness error; tab,
newline and carriage return are normalised to spaces, as expat does
for attribute values. -/
def scanAttrValueF (q : Char) : Nat → List Char → Option (List Char × List Char)
  | _, [] => none
  | 0, _ => none
  | fuel + 1, c :: r =>
    if c = q then some ([], r)
    else if c = '<' then none
    else if c = '&' then
      match decodeXmlEntity r with
      | some (ch, r2) =>
        match scanAttrValueF q fuel r2 with
        | some (t, rest) => some (ch :: t, rest)
        | none => none
      | none => none
    else
      match scanAttrValueF q fuel r with
      | some (t, rest) =>
        some ((if c = '\t' || c = '\n' || c = '\r' then ' ' else c) :: t, rest)
      | none => none

def scanAttrValue (q : Char) (cs : List Char) : Option (List Char × List Char) :=
  scanAttrValueF q (cs.length + 1) cs

/-- Parse the attribute list of a start tag, stopping at `/` or `>`.
Attributes must be separated by whitespace and use quoted values. -/
def parseAttrsF : Nat → List Char → Option (List (String × String) × List Char)
  | 0, _ => none
  | fuel + 1, cs =>
    match cs.dropWhile xmlWs with
    | [] => none
    | c :: r =>
      if c = '/' || c = '>' then some ([], c :: r)
      else if isNameStart c then
        match (c :: r).dropWhile isNameChar with
        | rest1 =>
          match rest1.dropWhile xmlWs with
          | '=' :: rest2 =>
            match rest2.dropWhile xmlWs with
            | q :: rest3 =>
              if q = '"' || q = '\'' then
                match scanAttrValue q rest3 with
                | some (v, rest4) =>
                  match rest4 with
                  | [] => none
                  | c2 :: _ =>
                    if c2 = '/' || c2 = '>' || xmlWs c2 then
                      match parseAttrsF fuel rest4 with
                      | some (attrs, rest5) =>
                        some ((String.mk ((c :: r).takeWhile isNameChar),
                          String.mk v) :: attrs, rest5)
                      | none => none
                    else none
                | none => none
              else none
            | [] => none
          | _ => none
      else none

/-! The element and content parsers are mutually recursive; a fuel
parameter (plain structural recursion) bounds the recursion depth.  The
top-level entry point supplies fuel that is always sufficient, since
every mutual call consumes at least one character. -/

mutual
/-- Parse one element starting at `<`; returns it and the rest of the
input after the closing tag. -/
def parseElemF : Nat → List Char → Option (XElem × List Char)
  | 0, _ => none
  | fuel + 1, cs =>
    match cs with
    | '<' :: r =>
      match r.takeWhile isNameChar with
      | [] => none
      | nm :: nmrest =>
        if isNameStart nm then
          match parseAttrsF ((r.dropWhile isNameChar).length + 1)
              (r.dropWhile isNameChar) with
          | some (attrs, r2) =>
            match r2 with
            | '/' :: '>' :: r3 =>
              some (XElem.mk (String.mk (nm :: nmrest)) attrs "" XKids.nil, r3)
            | '>' :: r3 =>
              match parseContentF fuel r3 with
              | some (txt, kids, r4) =>
                match r4 with
                | '<' :: '/' :: r5 =>
                  if r5.takeWhile isNameChar = nm :: nmrest then
                    match (r5.dropWhile isNameChar).dropWhile xmlWs with
                    | '>' :: r6 =>
                      some (XElem.mk (String.mk (nm :: nmrest)) attrs txt kids, r6)
                    | _ => none
                  else none
                | _ => none
              | none => none
            | _ => none
          | none => none
        else none
    | _ => none

/-- Parse element content: leading character data, then children with
their tails, stopping right before a closing tag. -/
def parseContentF : Nat → List Char → Option (String × XKids × List Char)
  | 0, _ => none
  | fuel + 1, cs =>
    match scanText cs with
    | some (t, r) =>
      match r with
      | '<' :: '/' :: r2 => some (String.mk t, XKids.nil, '<' :: '/' :: r2)
      | '<' :: r2 =>
        match parseElemF fuel ('<' :: r2) with
        | some (child, r3) =>
          match parseContentF fuel r3 with
          | some (t2, kids, r4) =>
            some (String.mk t, XKids.cons child t2 kids, r4)
          | none => none
        | none => none
      | _ => none
    | none => none
end

/-- Model of `xml.etree.ElementTree.fromstring`: parse a complete XML
document (optionally surrounded by whitespace) and return its root
element, or `none` on any well-formedness error (Python raises
`ParseError`). -/
def xmlFromString (input : String) : Option XElem :=
  match input.data.dropWhile xmlWs with
  | [] => none
  | c :: rest =>
    match parseElemF (2 * (c :: rest).length + 2) (c :: rest) with
    | some (e, after) =>
      if after.dropWhile xmlWs = [] then some e else none
    | none => none

/-! ## Embedding of `safe_fromstring` -/

/-- Children used by the fallback path: one `br` element per remaining
segment, the segment attached as the element's tail
(`SubElement(root, "br").tail = piece`). -/
def brKids : List String → XKids
  | [] => XKids.nil
  | t :: ts => XKids.cons (XElem.mk "br" [] "" XKids.nil) t (brKids ts)

/-- Embedding of `safe_fromstring` from `generate_rss.py`.  Strict-parse
the markup wrapped in a `<div>` root; on a parse error, decode HTML
character references, split on `<br>` variants and rebuild a synthetic
`div` fragment.  The final `else` branch mirrors the Python
`if parts:` guard whose `else` arm assigns the undecoded text. -/
def safe_fromstring (html_content : String) : XElem :=
  match xmlFromString ("<div>" ++ html_content ++ "</div>") with
  | some root => root
  | none =>
    match splitBr (unescape html_content) with
    | p :: ps => XElem.mk "div" [] p (brKids ps)
    | [] => XElem.mk "div" [] (unescape html_content) XKids.nil

/-- Description element built from a sanitised fragment, as in
`add_items`: `desc.text = frag.text or ""` and every child (with its
tail) is appended. -/
def descFromFrag (frag : XElem) : XElem :=
  XElem.mk "description" [] frag.text frag.kids

/-- Text segments of a fragment: its leading text followed by the tails
of its children in order. -/
def tailsOf : XKids → List String
  | XKids.nil => []
  | XKids.cons _ t k => t :: tailsOf k

def fragSegments (e : XElem) : List String :=
  e.text :: tailsOf e.kids

/-- Do all children of the fragment carry the given tag? -/
def allTags (t : String) : XKids → Bool
  | XKids.nil => true
  | XKids.cons e _ k => e.tag = t && allTags t k

theorem tailsOf_brKids (ts : List String) : tailsOf (brKids ts) = ts := by
  induction ts with
  | nil => rfl
  | cons t ts ih => simp [brKids, tailsOf, ih]

theorem allTags_brKids (ts : List String) : allTags "br" (brKids ts) = true := by
  induction ts with
  | nil => rfl
  | cons t ts ih => simp [brKids, allTags, ih, XElem.tag]

/-! ## HTML document model (BeautifulSoup side)

The parsed input page is a forest of nodes; an element node has a tag,
an attribute list and children.  `decode_contents`, `find`,
`find_all` and `get_text` are modelled on this tree. -/

mutual
inductive HNode : Type where
  | elem : String → List (String × String) → HForest → HNode
  | text : String → HNode
inductive HForest : Type where
  | nil : HForest
  | cons : HNode → HForest → HForest
end

def hForestOfList : List HNode → HForest
  | [] => .nil
  | n :: ns => .cons n (hForestOfList ns)

/-- Attribute lookup (`tag.get(name)`). -/
def hAttr (attrs : List (String × String)) (name : String) : Option String :=
  match attrs with
  | [] => none
  | (k, v) :: rest => if k = name then some v else hAttr rest name

/-- Void (empty-element) HTML tags, which BeautifulSoup's `html.parser`
builder renders as `<tag/>` and never gives children. -/
def isVoidTag (t : String) : Bool :=
  t = "br" || t = "hr" || t = "img" || t = "input" || t = "meta" || t = "link"

/-- Escaping applied by BeautifulSoup's `minimal` formatter to text. -/
def bsEscape (s : String) : String :=
  String.mk (s.data.flatMap (fun c =>
    if c = '&' then ['&', 'a', 'm', 'p', ';']
    else if c = '<' then ['&', 'l', 't', ';']
    else if c = '>' then ['&', 'g', 't', ';']
    else [c]))

def bsAttrText (attrs : List (String × String)) : String :=
  match attrs with
  | [] => ""
  | (k, v) :: rest => " " ++ k ++ "=\"" ++ bsEscape v ++ "\"" ++ bsAttrText rest

mutual
/-- Markup rendered for one node (BeautifulSoup `decode`). -/
def hRender : HNode → String
  | .text s => bsEscape s
  | .elem t attrs kids =>
    if isVoidTag t then "<" ++ t ++ bsAttrText attrs ++ "/>"
    else "<" ++ t ++ bsAttrText attrs ++ ">" ++ hRenderF kids ++ "</" ++ t ++ ">"
/-- Markup rendered for a forest of nodes. -/
def hRenderF : HForest → String
  | .nil => ""
  | .cons n rest => hRender n ++ hRenderF rest
end

/-- Model of `tag.decode_contents()`: the rendered markup of the
element's children. -/
def decodeContents : HNode → String
  | .elem _ _ kids => hRenderF kids
  | .text s => bsEscape s

mutual
/-- First element with the given tag and `id` attribute, in document
order (model of `soup.find("div", id=...)`). -/
def findByIdN (tag idv : String) : HNode → Option HNode
  | .text _ => none
  | .elem t attrs kids =>
    if t = tag ∧ hAttr attrs "id" = some idv then some (.elem t attrs kids)
    else findByIdF tag idv kids
def findByIdF (tag idv : String) : HForest → Option HNode
  | .nil => none
  | .cons n rest =>
    match findByIdN tag idv n with
    | some r => some r
    | none => findByIdF tag idv rest
end

mutual
/-- All descendant elements with the given tag, in document order
(model of `tag.find_all(name)`, which searches the whole subtree,
descending also into matches). -/
def findAllN (tag : String) : HNode → List HNode
  | .text _ => []
  | .elem t attrs kids =>
    (if t = tag then [HNode.elem t attrs kids] else []) ++ findAllF tag kids
def findAllF (tag : String) : HForest → List HNode
  | .nil => []
  | .cons n rest => findAllN tag n ++ findAllF tag rest
end

/-- Descendants of an element (excluding itself) with the given tag:
`entry.find_all(name)` searches below the element only. -/
def findAllTag (tag : String) (n : HNode) : List HNode :=
  match n with
  | .elem _ _ kids => findAllF tag kids
  | .text _ => []

mutual
/-- All text-node strings of the subtree, in document order. -/
def allStringsN : HNode → List String
  | .text s => [s]
  | .elem _ _ kids => allStringsF kids
def allStringsF : HForest → List String
  | .nil => []
  | .cons n rest => allStringsN n ++ allStringsF rest
end

/-- Model of `tag.get_text(separator=sep, strip=True)`: strings are
stripped, empty ones dropped, the rest joined with the separator. -/
def getTextSep (sep : String) (n : HNode) : String :=
  String.intercalate sep
    (((allStringsN n).map pyStrip).filter (fun s => !s.isEmpty))

/-- Model of `tag.get_text(strip=True)`. -/
def getTextStrip (n : HNode) : String := getTextSep "" n

/-! ## Embedding of `add_items` -/

def lowEq (c target : Char) : Bool := c.toLower = target

/-- Match the regex suffix `\.?\s*(\d+)` at the head of the input and
return the captured digit run.  The deterministic greedy scan is
equivalent to the backtracking regex here: whenever the optional dot or
a shorter whitespace run is retried, the following character can never
be a digit. -/
def afterKey (cs : List Char) : Option (List Char) :=
  match (match cs with | '.' :: r => r | _ => cs).dropWhile pyWs
      |>.takeWhile Char.isDigit with
  | [] => none
  | ds => some ds

/-- Match `(?:No|Number)\.?\s*(\d+)` (case-insensitive) at the current
position; the two alternatives are distinguished by their second
letter. -/
def keyAt (cs : List Char) : Option (List Char) :=
  match cs with
  | c1 :: c2 :: rest =>
    if lowEq c1 'n' then
      if lowEq c2 'o' then afterKey rest
      else if lowEq c2 'u' then
        match rest with
        | c3 :: c4 :: c5 :: c6 :: rest2 =>
          if lowEq c3 'm' && lowEq c4 'b' && lowEq c5 'e' && lowEq c6 'r' then
            afterKey rest2
          else none
        | _ => none
      else none
    else none
  | _ => none

def findNumAux : List Char → Option (List Char)
  | [] => none
  | c :: rest =>
    match keyAt (c :: rest) with
    | some ds => some ds
    | none => findNumAux rest

/-- Model of `re.search(r'(?:No|Number)\.?\s*(\d+)', s, re.IGNORECASE)`:
the captured digits of the leftmost match, if any. -/
def findNumber (s : String) : Option String :=
  (findNumAux s.data).map String.mk

/-- Title built for a rainfall / thunderstorm item from the (already
normalised) block markup. -/
def mkTitle (category slug html : String) : String :=
  match findNumber html with
  | some n => category ++ " No. " ++ n ++ " #" ++ pyUpper slug
  | none => category ++ " #" ++ pyUpper slug

/-- One rainfall / thunderstorm item: title, description (from the
sanitised fragment) and category, in source order. -/
def mkBlockItem (category slug html : String) : XElem :=
  XElem.mk "item" [] ""
    (XKids.cons (XElem.mk "title" [] (mkTitle category slug html) XKids.nil) ""
      (XKids.cons (descFromFrag (safe_fromstring html)) ""
        (XKids.cons (XElem.mk "category" [] category XKids.nil) "" XKids.nil)))

/-- Per-block step of the rainfall / thunderstorm loop: normalise the
block's markup, skip the block when the normalised markup is blank,
otherwise build its item. -/
def processMarkup (category slug markup : String) : Option XElem :=
  if (pyStrip (normalize_html markup)).isEmpty then none
  else some (mkBlockItem category slug (normalize_html markup))

/-- The `for entry in div.find_all("div")` loop body of `add_items`. -/
def blockLoop (category slug : String) : List HNode → List XElem
  | [] => []
  | e :: rest =>
    match processMarkup category slug (decodeContents e) with
    | some item => item :: blockLoop category slug rest
    | none => blockLoop category slug rest

/-- Non-empty stripped span texts of a special-forecast link. -/
def spanParts (link : HNode) : List String :=
  ((findAllTag "span" link).map getTextStrip).filter (fun p => !p.isEmpty)

/-- Body markup of a special-forecast item: the span texts joined with
`<br />`, or the link's full text with `<br />` separators when there
are no (non-empty) spans. -/
def specialHtml (link : HNode) : String :=
  match spanParts link with
  | [] => getTextSep "<br />" link
  | ps => String.intercalate "<br />" ps

/-- Site-relative hrefs are made absolute. -/
def absolutize (h : String) : String :=
  if h.startsWith "/" then "https://www.pagasa.dost.gov.ph" ++ h else h

def hrefOf (link : HNode) : Option String :=
  match link with
  | .elem _ attrs _ => hAttr attrs "href"
  | .text _ => none

/-- Children of a special-forecast item after the title. -/
def linkKids (category : String) (link : HNode) : XKids :=
  (match hrefOf link with
   | some h =>
     if h.isEmpty then id
     else XKids.cons (XElem.mk "link" [] (absolutize h) XKids.nil) ""
   | none => id)
  ((if (specialHtml link).isEmpty then id
    else XKids.cons (descFromFrag (safe_fromstring (specialHtml link))) "")
   (XKids.cons (XElem.mk "category" [] category XKids.nil) "" XKids.nil))

/-- One special-forecast item: title, optional link, optional
description, category. -/
def specialItem (category : String) (link : HNode) : XElem :=
  XElem.mk "item" [] ""
    (XKids.cons
      (XElem.mk "title" []
        (if (getTextStrip link).isEmpty then category
         else category ++ ": " ++ getTextStrip link) XKids.nil) ""
      (linkKids category link))

/-- Embedding of `add_items`: locate the container by id; absent
container contributes nothing; the `special-forecasts` container is
processed per link, the other containers per descendant `div` block. -/
def add_items (page : HForest) (divId category slug : String) : List XElem :=
  match findByIdF "div" divId page with
  | none => []
  | some d =>
    if divId = "special-forecasts" then
      (findAllTag "a" d).map (specialItem category)
    else
      blockLoop category slug (findAllTag "div" d)

/-! ## Feed assembly (model of `main`) -/

def baseUrl (slug : String) : String :=
  "https://www.pagasa.dost.gov.ph/regional-forecast/" ++ slug

/-- Abstract UTC timestamp handed to the pipeline in place of
`datetime.now(timezone.utc)`.  The field ranges produced by `datetime`
(month 1–12, day 1–31, hour 0–23, minute/second 0–59, year ≤ 9999,
weekday 0 = Monday) are the reachable inputs of the formatter below. -/
structure Timestamp where
  year : Nat
  month : Nat
  day : Nat
  hour : Nat
  minute : Nat
  second : Nat
  weekday : Fin 7

/-- Zero-padded two-digit field of `%02d`, faithful for the 0–99 values
`datetime` can produce. -/
def fmt02 (n : Nat) : String :=
  String.mk [digitChar (n / 10 % 10), digitChar (n % 10)]

/-- Zero-padded four-digit field of `%04d`, faithful for years ≤ 9999
(`datetime.MAXYEAR`). -/
def fmt04 (n : Nat) : String :=
  String.mk [digitChar (n / 1000 % 10), digitChar (n / 100 % 10),
    digitChar (n / 10 % 10), digitChar (n % 10)]

def dayAbbr (w : Fin 7) : String :=
  match w.val with
  | 0 => "Mon" | 1 => "Tue" | 2 => "Wed" | 3 => "Thu"
  | 4 => "Fri" | 5 => "Sat" | _ => "Sun"

/-- Month abbreviation (list indexed with `month - 1` in CPython; the
default arm mirrors the Python list's index `-1` wrap for 0 and is
unreachable for `datetime` values). -/
def monthAbbr (m : Nat) : String :=
  match m with
  | 1 => "Jan" | 2 => "Feb" | 3 => "Mar" | 4 => "Apr"
  | 5 => "May" | 6 => "Jun" | 7 => "Jul" | 8 => "Aug"
  | 9 => "Sep" | 10 => "Oct" | 11 => "Nov" | _ => "Dec"

/-- Model of `email.utils.format_datetime` on an aware UTC datetime:
`"%a, %02d %b %04d %02d:%02d:%02d +0000"`. -/
def format_datetime (t : Timestamp) : String :=
  dayAbbr t.weekday ++ ", " ++ fmt02 t.day ++ " " ++ monthAbbr t.month ++ " " ++
    fmt04 t.year ++ " " ++ fmt02 t.hour ++ ":" ++ fmt02 t.minute ++ ":" ++
    fmt02 t.second ++ " +0000"

/-- Items contributed by the three containers, in the order `main` adds
them. -/
def itemsOf (page : HForest) (slug : String) : List XElem :=
  add_items page "rainfalls" "Rainfall Advisory" slug ++
  add_items page "thunderstorms" "Thunderstorm Advisory" slug ++
  add_items page "special-forecasts" "Special Forecast" slug

def chTitle (slug : String) : XElem :=
  XElem.mk "title" [] ("PAGASA " ++ pyUpper slug ++ " Advisories") XKids.nil

def chLink (slug : String) : XElem :=
  XElem.mk "link" [] (baseUrl slug) XKids.nil

def chDesc (slug : String) : XElem :=
  XElem.mk "description" []
    ("Aggregated rainfall, thunderstorm, and special forecasts from PAGASA "
      ++ pyUpper slug) XKids.nil

def chLbd (now : Timestamp) : XElem :=
  XElem.mk "lastBuildDate" [] (format_datetime now) XKids.nil

/-- The `channel` element: four metadata children followed by the
items. -/
def buildChannel (page : HForest) (slug : String) (now : Timestamp) : XElem :=
  XElem.mk "channel" [] ""
    (kidsOfList ([chTitle slug, chLink slug, chDesc slug, chLbd now]
      ++ itemsOf page slug))

/-- The `rss` root element. -/
def buildRss (page : HForest) (slug : String) (now : Timestamp) : XElem :=
  XElem.mk "rss" [("version", "2.0")] ""
    (XKids.cons (buildChannel page slug now) "" XKids.nil)

/-! ## Serialisation (models of `indent` and `ElementTree.write`) -/

/-- Is the string `None`-like or whitespace-only
(`not s or not s.strip()`)? -/
def blankStr (s : String) : Bool := (pyStrip s).isEmpty

/-- Indentation string for a nesting level (`"\n" + level * "  "`,
with `indent(..., space="  ")`). -/
def pad (level : Nat) : String :=
  "\n" ++ String.mk (List.replicate (2 * level) ' ')

def XKids.isNil : XKids → Bool
  | .nil => true
  | .cons _ _ _ => false

mutual
/-- Model of `xml.etree.ElementTree.indent`'s `_indent_children` for an
element that has children, called at nesting level `lvl`. -/
def indentElem (lvl : Nat) : XElem → XElem
  | XElem.mk tag attrs text kids =>
    XElem.mk tag attrs (if blankStr text then pad (lvl + 1) else text)
      (indentKids lvl kids)
/-- Tail adjustment of the children: every child with children is
indented recursively; blank tails become the child indentation, and the
last child's tail, when blank, becomes the parent indentation. -/
def indentKids (lvl : Nat) : XKids → XKids
  | .nil => .nil
  | .cons c tail .nil =>
    .cons (if c.kids.isNil then c else indentElem (lvl + 1) c)
      (if blankStr (if blankStr tail then pad (lvl + 1) else tail)
       then pad lvl else (if blankStr tail then pad (lvl + 1) else tail))
      .nil
  | .cons c tail rest =>
    .cons (if c.kids.isNil then c else indentElem (lvl + 1) c)
      (if blankStr tail then pad (lvl + 1) else tail)
      (indentKids lvl rest)
end

/-- Model of `indent(tree, space="  ")`: a childless root is left
untouched. -/
def indentTop (root : XElem) : XElem :=
  if root.kids.isNil then root else indentElem 0 root

/-- Escaping of character data by `ElementTree` (`_escape_cdata`). -/
def escapeCdata (s : String) : String :=
  String.mk (s.data.flatMap (fun c =>
    if c = '&' then ['&', 'a', 'm', 'p', ';']
    else if c = '<' then ['&', 'l', 't', ';']
    else if c = '>' then ['&', 'g', 't', ';']
    else [c]))

/-- Escaping of attribute values by `ElementTree` (`_escape_attrib`). -/
def escapeAttrib (s : String) : String :=
  String.mk (s.data.flatMap (fun c =>
    if c = '&' then ['&', 'a', 'm', 'p', ';']
    else if c = '<' then ['&', 'l', 't', ';']
    else if c = '>' then ['&', 'g', 't', ';']
    else if c = '"' then ['&', 'q', 'u', 'o', 't', ';']
    else if c = '\r' then ['&', '#', '1', '3', ';']
    else if c = '\n' then ['&', '#', '1', '0', ';']
    else if c = '\t' then ['&', '#', '0', '9', ';']
    else [c]))

def serAttrs : List (String × String) → String
  | [] => ""
  | (k, v) :: rest => " " ++ k ++ "=\"" ++ escapeAttrib v ++ "\"" ++ serAttrs rest

mutual
/-- Serialisation of one element (`_serialize_xml` with the default
`short_empty_elements=True`). -/
def serializeElem : XElem → String
  | XElem.mk tag attrs text kids =>
    "<" ++ tag ++ serAttrs attrs ++
      (if text = "" && kids.isNil then " />"
       else ">" ++ escapeCdata text ++ serializeKids kids ++ "</" ++ tag ++ ">")
/-- Serialisation of children with their tails. -/
def serializeKids : XKids → String
  | .nil => ""
  | .cons c tail rest => serializeElem c ++ escapeCdata tail ++ serializeKids rest
end

/-- Model of `tree.write(path, encoding="utf-8", xml_declaration=True)`:
the declaration line followed by the serialised root. -/
def serializeDoc (root : XElem) : String :=
  "<?xml version='1.0' encoding='utf-8'?>\n" ++ serializeElem root

/-- Bytes written to `<slug>.rss` for the given page and timestamp. -/
def rssOutput (page : HForest) (slug : String) (now : Timestamp) : String :=
  serializeDoc (indentTop (buildRss page slug now))

/-! ## Run model (control flow of `main`) -/

/-- Outcome of `requests.get` + `raise_for_status`: either the parsed
page, or the exception text of a transport error / non-2xx status. -/
inductive FetchResult : Type where
  | ok : HForest → FetchResult
  | fetchError : String → FetchResult

/-- Observable effects of one run: lines printed and the file written
(name and content), if any. -/
structure RunResult where
  printed : List String
  file : Option (String × String)

/-- Embedding of `main`: a failed fetch prints one error line and
returns before any output is produced; a successful fetch builds the
feed, writes it and prints the success line. -/
def runMain (slug : String) (fetch : FetchResult) (now : Timestamp) : RunResult :=
  match fetch with
  | .fetchError e =>
    { printed := ["Error fetching data from " ++ baseUrl slug ++ ": " ++ e],
      file := none }
  | .ok page =>
    { printed := ["Successfully generated " ++ slug ++ ".rss"],
      file := some (slug ++ ".rss", rssOutput page slug now) }

/-- Decidable shape check for an RFC-2822 date-time as produced by
`email.utils.format_datetime` for UTC: `"Www, DD Mon YYYY HH:MM:SS
+0000"` (31 characters) with a valid day and month name. -/
def isRFC2822 (s : String) : Bool :=
  decide (s.data.length = 31) &&
  (["Mon", "Tue", "Wed", "Thu", "Fri", "Sat", "Sun"].contains
    (String.mk (s.data.take 3))) &&
  decide (String.mk ((s.data.drop 3).take 2) = ", ") &&
  ((s.data.drop 5).take 2).all Char.isDigit &&
  decide (String.mk ((s.data.drop 7).take 1) = " ") &&
  (["Jan", "Feb", "Mar", "Apr", "May", "Jun", "Jul", "Aug", "Sep", "Oct",
    "Nov", "Dec"].contains (String.mk ((s.data.drop 8).take 3))) &&
  decide (String.mk ((s.data.drop 11).take 1) = " ") &&
  ((s.data.drop 12).take 4).all Char.isDigit &&
  decide (String.mk ((s.data.drop 16).take 1) = " ") &&
  ((s.data.drop 17).take 2).all Char.isDigit &&
  decide (String.mk ((s.data.drop 19).take 1) = ":") &&
  ((s.data.drop 20).take 2).all Char.isDigit &&
  decide (String.mk ((s.data.drop 22).take 1) = ":") &&
  ((s.data.drop 23).take 2).all Char.isDigit &&
  decide (String.mk (s.data.drop 25) = " +0000")

/-! ## Helper lemmas -/

/-- Plain text check: no `<` and no `&` anywhere. -/
def noTagAmp (l : List Char) : Bool :=
  l.all (fun c => !(c = '<' || c = '&'))

theorem unescapeF_id (fuel : Nat) :
    ∀ l : List Char, (∀ c ∈ l, c ≠ '&') → unescapeF fuel l = l := by
  induction fuel with
  | zero =>
    intro l h
    rcases l with _ | ⟨c, r⟩
    · rw [unescapeF]
    · rw [unescapeF]
      simp
  | succ f ih =>
    intro l h
    rcases l with _ | ⟨c, r⟩
    · rw [unescapeF]
    · rw [unescapeF]
      rw [if_neg (h c (by simp))]
      rw [ih r (fun d hd => h d (by simp [hd]))]

theorem unescapeL_id {l : List Char} (h : ∀ c ∈ l, c ≠ '&') :
    unescapeL l = l :=
  unescapeF_id _ l h

theorem matchBr_none {c : Char} (r : List Char) (h : c ≠ '<') :
    matchBr (c :: r) = none := by
  rcases r with _ | ⟨c1, _ | ⟨c2, r'⟩⟩
  · rfl
  · rfl
  · rw [matchBr]
    simp [h]

theorem splitBrF_single (fuel : Nat) :
    ∀ l : List Char, (∀ c ∈ l, c ≠ '<') → l.length < fuel →
      splitBrF fuel l = [l] := by
  induction fuel with
  | zero =>
    intro l h hlen
    exact absurd hlen (by omega)
  | succ f ih =>
    intro l h hlen
    rcases l with _ | ⟨c, r⟩
    · rw [splitBrF]
    · rw [splitBrF]
      rw [matchBr_none r (h c (by simp))]
      rw [ih r (fun d hd => h d (by simp [hd]))
        (by simp only [List.length_cons] at hlen; omega)]

theorem splitBrL_single {l : List Char} (h : ∀ c ∈ l, c ≠ '<') :
    splitBrL l = [l] :=
  splitBrF_single _ l h (by omega)

/-- Does the list contain `]]>` as a contiguous subsequence? -/
def hasCdataEnd : List Char → Bool
  | [] => false
  | c :: r => (c = ']' && isPref [']', '>'] r) || hasCdataEnd r

theorem isPref_brk_append (l t : List Char) :
    isPref [']', '>'] (l ++ '<' :: t) = isPref [']', '>'] l := by
  rcases l with _ | ⟨a, _ | ⟨b, l'⟩⟩
  · simp [isPref]
  · simp [isPref]
  · simp [isPref]

theorem scanTextF_stop (fuel : Nat) :
    ∀ l t : List Char, (∀ c ∈ l, c ≠ '<' ∧ c ≠ '&') →
      hasCdataEnd l = false → l.length < fuel →
      scanTextF fuel (l ++ '<' :: '/' :: t) = some (l, '<' :: '/' :: t) := by
  induction fuel with
  | zero =>
    intro l t _ _ hlen
    exact absurd hlen (by omega)
  | succ f ih =>
    intro l t hok hcd hlen
    rcases l with _ | ⟨c, r⟩
    · rw [List.nil_append]
      rfl
    · have hc := hok c (by simp)
      rw [hasCdataEnd] at hcd
      simp only [Bool.or_eq_false_iff] at hcd
      obtain ⟨hcd1, hcd2⟩ := hcd
      rw [List.cons_append, scanTextF]
      rw [if_neg (by simp [hc.1])]
      rw [if_neg (by simp [hc.2])]
      have hpref : (c = ']' && isPref [']', '>'] (r ++ '<' :: '/' :: t)) = false := by
        rw [show r ++ '<' :: '/' :: t = r ++ '<' :: ('/' :: t) from rfl]
        rw [isPref_brk_append]
        exact hcd1
      rw [if_neg (by simp only [hpref]; exact Bool.false_ne_true)]
      rw [ih r t (fun d hd => hok d (by simp [hd])) hcd2
        (by simp only [List.length_cons] at hlen; omega)]

theorem scanText_stop {l : List Char} (t : List Char)
    (hok : ∀ c ∈ l, c ≠ '<' ∧ c ≠ '&') (hcd : hasCdataEnd l = false) :
    scanText (l ++ '<' :: '/' :: t) = some (l, '<' :: '/' :: t) :=
  scanTextF_stop _ l t hok hcd
    (by simp only [List.length_append, List.length_cons]; omega)

theorem isPref_extend {p l : List Char} (t : List Char)
    (h : isPref p l = true) : isPref p (l ++ t) = true := by
  induction p generalizing l with
  | nil => rfl
  | cons a ps ih =>
    rcases l with _ | ⟨b, l'⟩
    · exact absurd h (by rw [isPref]; simp)
    · rw [isPref] at h
      simp only [Bool.and_eq_true] at h
      rw [List.cons_append, isPref]
      simp only [Bool.and_eq_true]
      exact ⟨h.1, ih h.2⟩

theorem scanTextF_fail (fuel : Nat) :
    ∀ l t : List Char, (∀ c ∈ l, c ≠ '<' ∧ c ≠ '&') →
      hasCdataEnd l = true → scanTextF fuel (l ++ t) = none := by
  induction fuel with
  | zero =>
    intro l t hok hcd
    rcases l with _ | ⟨c, r⟩
    · exact absurd hcd (by rw [hasCdataEnd]; simp)
    · rw [List.cons_append, scanTextF]
      simp
  | succ f ih =>
    intro l t hok hcd
    rcases l with _ | ⟨c, r⟩
    · exact absurd hcd (by rw [hasCdataEnd]; simp)
    · have hc := hok c (by simp)
      rw [hasCdataEnd] at hcd
      rw [List.cons_append, scanTextF]
      rw [if_neg (by simp [hc.1])]
      rw [if_neg (by simp [hc.2])]
      rcases Bool.or_eq_true_iff.mp hcd with hcase | hcase
      · have hp : (c = ']' && isPref [']', '>'] (r ++ t)) = true := by
          simp only [Bool.and_eq_true] at hcase ⊢
          exact ⟨hcase.1, isPref_extend t hcase.2⟩
        rw [if_pos hp]
      · by_cases hpp : (c = ']' && isPref [']', '>'] (r ++ t)) = true
        · rw [if_pos hpp]
        · rw [if_neg hpp]
          rw [ih r t (fun d hd => hok d (by simp [hd])) hcase]

theorem scanText_fail {l : List Char} (t : List Char)
    (hok : ∀ c ∈ l, c ≠ '<' ∧ c ≠ '&') (hcd : hasCdataEnd l = true) :
    scanText (l ++ t) = none :=
  scanTextF_fail _ l t hok hcd

/-- Bare-ampersand detector: some `&` in the string does not begin a
valid XML entity reference. -/
def bareAmpAux : List Char → Bool
  | [] => false
  | c :: r => (c = '&' && (decodeXmlEntity r).isNone) || bareAmpAux r

/-- Does the string contain an ampersand that the strict XML parser
cannot accept? -/
def hasBareAmp (s : String) : Bool := bareAmpAux s.data

theorem parseContentF_text {fuel : Nat} {l t : List Char}
    (hok : ∀ c ∈ l, c ≠ '<' ∧ c ≠ '&') (hcd : hasCdataEnd l = false) :
    parseContentF (fuel + 1) (l ++ '<' :: '/' :: t) =
      some (String.mk l, XKids.nil, '<' :: '/' :: t) := by
  rw [parseContentF]
  rw [scanText_stop t hok hcd]
  rfl

theorem parseElemF_wrap {fuel : Nat} {l : List Char}
    (hok : ∀ c ∈ l, c ≠ '<' ∧ c ≠ '&') (hcd : hasCdataEnd l = false) :
    parseElemF (fuel + 2)
      ('<' :: 'd' :: 'i' :: 'v' :: '>' ::
        (l ++ ('<' :: '/' :: 'd' :: 'i' :: 'v' :: '>' :: []))) =
      some (XElem.mk "div" [] (String.mk l) XKids.nil, []) := by
  have e1 : fuel + 2 = (fuel + 1) + 1 := rfl
  rw [e1, parseElemF]
  have hd : isNameChar 'd' = true := by decide
  have hds : isNameStart 'd' = true := by decide
  have hi : isNameChar 'i' = true := by decide
  have hv : isNameChar 'v' = true := by decide
  have hgt : isNameChar '>' = false := by decide
  have hxg : xmlWs '>' = false := by decide
  simp only [List.takeWhile, List.dropWhile, hd, hds, hi, hv, hgt, hxg]
  simp only [List.length_cons, parseAttrsF, List.dropWhile, hxg]
  norm_num
  rw [parseContentF_text hok hcd]
  simp only [List.takeWhile, List.dropWhile, hd, hi, hv, hgt, hxg]
  norm_num

theorem wrap_data (s : String) :
    ("<div>" ++ s ++ "</div>").data
      = '<' :: 'd' :: 'i' :: 'v' :: '>' ::
        (s.data ++ ('<' :: '/' :: 'd' :: 'i' :: 'v' :: '>' :: [])) := by
  simp [String.data_append]

theorem xmlFromString_wrap_plain {s : String}
    (hok : ∀ c ∈ s.data, c ≠ '<' ∧ c ≠ '&')
    (hcd : hasCdataEnd s.data = false) :
    xmlFromString ("<div>" ++ s ++ "</div>")
      = some (XElem.mk "div" [] s XKids.nil) := by
  unfold xmlFromString
  rw [wrap_data]
  have hlt : xmlWs '<' = false := by decide
  simp only [List.dropWhile, hlt]
  rw [parseElemF_wrap hok hcd]
  simp [List.dropWhile]

theorem parseElemF_wrap_fail {fuel : Nat} {l t : List Char}
    (hok : ∀ c ∈ l, c ≠ '<' ∧ c ≠ '&') (hcd : hasCdataEnd l = true) :
    parseElemF (fuel + 2)
      ('<' :: 'd' :: 'i' :: 'v' :: '>' :: (l ++ t)) = none := by
  have e1 : fuel + 2 = (fuel + 1) + 1 := rfl
  rw [e1, parseElemF]
  have hd : isNameChar 'd' = true := by decide
  have hds : isNameStart 'd' = true := by decide
  have hi : isNameChar 'i' = true := by decide
  have hv : isNameChar 'v' = true := by decide
  have hgt : isNameChar '>' = false := by decide
  have hxg : xmlWs '>' = false := by decide
  simp only [List.takeWhile, List.dropWhile, hd, hds, hi, hv, hgt, hxg]
  simp only [List.length_cons, parseAttrsF, List.dropWhile, hxg]
  norm_num
  rw [parseContentF, scanText_fail t hok hcd]

theorem xmlFromString_wrap_cdata {s : String}
    (hok : ∀ c ∈ s.data, c ≠ '<' ∧ c ≠ '&')
    (hcd : hasCdataEnd s.data = true) :
    xmlFromString ("<div>" ++ s ++ "</div>") = none := by
  unfold xmlFromString
  rw [wrap_data]
  have hlt : xmlWs '<' = false := by decide
  simp only [List.dropWhile, hlt]
  rw [parseElemF_wrap_fail hok hcd]

theorem parseElemF_div_tag {fuel : Nat} {l rest : List Char} {e : XElem}
    (h : parseElemF fuel ('<' :: 'd' :: 'i' :: 'v' :: '>' :: l) = some (e, rest)) :
    e.tag = "div" := by
  match fuel with
  | 0 => rw [parseElemF] at h; exact absurd h (by simp)
  | fuel + 1 =>
    rw [parseElemF] at h
    have hd : isNameChar 'd' = true := by decide
    have hds : isNameStart 'd' = true := by decide
    have hi : isNameChar 'i' = true := by decide
    have hv : isNameChar 'v' = true := by decide
    have hgt : isNameChar '>' = false := by decide
    have hxg : xmlWs '>' = false := by decide
    simp only [List.takeWhile, List.dropWhile, hd, hds, hi, hv, hgt, hxg,
      if_true, if_false] at h
    simp only [List.length_cons, parseAttrsF, List.dropWhile, hxg] at h
    norm_num at h
    split at h
    · split at h
      · split at h
        · split at h
          · injection h with h'
            injection h' with h1 h2
            rw [← h1]
            rfl
          · exact absurd h (by simp)
        · exact absurd h (by simp)
      · exact absurd h (by simp)
    · exact absurd h (by simp)

theorem xmlFromString_wrap_tag {s : String} {e : XElem}
    (h : xmlFromString ("<div>" ++ s ++ "</div>") = some e) : e.tag = "div" := by
  unfold xmlFromString at h
  rw [wrap_data] at h
  have hlt : xmlWs '<' = false := by decide
  simp only [List.dropWhile, hlt] at h
  split at h
  · rename_i e0 after heq
    split at h
    · injection h with h'
      subst h'
      exact parseElemF_div_tag heq
    · exact absurd h (by simp)
  · exact absurd h (by simp)

/-! ## Statement helpers and concrete fixtures -/

/-- First child with the given tag. -/
def findKid (tagv : String) : XKids → Option XElem
  | .nil => none
  | .cons e _ k => if e.tag = tagv then some e else findKid tagv k

/-- Title text of an item element. -/
def itemTitle (item : XElem) : Option String :=
  (findKid "title" item.kids).map XElem.text

/-- Leading text of an item's description element. -/
def descText (item : XElem) : Option String :=
  (findKid "description" item.kids).map XElem.text

def hForestToList : HForest → List HNode
  | .nil => []
  | .cons n r => n :: hForestToList r

def isDivElem : HNode → Bool
  | .elem t _ _ => t = "div"
  | .text _ => false

/-- Modelled from the spec (section 4.2, "each direct child block
within the container yields one record"): the immediate `div` children
of the container element.  The source instead uses the recursive
`find_all("div")`; this definition exists to compare the two. -/
def directChildDivs : HNode → List HNode
  | .elem _ _ kids => (hForestToList kids).filter isDivElem
  | .text _ => []

/-- Container with one direct child block that itself nests another
block (fixture for the direct-children question). -/
def c4cont : HNode :=
  HNode.elem "div" [("id", "rainfalls")]
    (hForestOfList [HNode.elem "div" []
      (hForestOfList [HNode.elem "div" [] (hForestOfList [HNode.text "inner"])])])

def c4page : HForest := hForestOfList [c4cont]

/-- A block whose markup consists of a single `br` tag and no text. -/
def c5block : HNode :=
  HNode.elem "div" [] (hForestOfList [HNode.elem "br" [] HForest.nil])

def c5page : HForest :=
  hForestOfList [HNode.elem "div" [("id", "rainfalls")] (hForestOfList [c5block])]

/-- Special-forecast link whose span text contains an interior double
space (whitespace that `normalize_html` would collapse). -/
def c6link : HNode :=
  HNode.elem "a" [("href", "/x")]
    (hForestOfList [HNode.elem "span" [] (hForestOfList [HNode.text "a  b"])])

def c6page : HForest :=
  hForestOfList [HNode.elem "div" [("id", "special-forecasts")]
    (hForestOfList [c6link])]

theorem str_ne_empty_right {b : String} (a : String) (hb : b.data ≠ []) :
    a ++ b ≠ "" := by
  intro hc
  have h2 : (a ++ b).data = [] := by rw [hc]
  rw [String.data_append] at h2
  exact hb (List.append_eq_nil.mp h2).2

theorem str_ne_empty_left {a : String} (b : String) (ha : a.data ≠ []) :
    a ++ b ≠ "" := by
  intro hc
  have h2 : (a ++ b).data = [] := by rw [hc]
  rw [String.data_append] at h2
  exact ha (List.append_eq_nil.mp h2).1

theorem format_datetime_ne_empty (t : Timestamp) : format_datetime t ≠ "" := by
  unfold format_datetime
  exact str_ne_empty_right _ (by decide)

def rssPre (slug : String) : String :=
  "<?xml version='1.0' encoding='utf-8'?>\n" ++
  "<" ++ "rss" ++ " " ++ "version" ++ "=\"" ++ escapeAttrib "2.0" ++ "\"" ++ "" ++
  ">" ++ escapeCdata (pad 1) ++
  "<" ++ "channel" ++ "" ++ ">" ++ escapeCdata (pad 2) ++
  "<" ++ "title" ++ "" ++ ">" ++
    escapeCdata ("PAGASA " ++ pyUpper slug ++ " Advisories") ++ "" ++
  "</" ++ "title" ++ ">" ++ escapeCdata (pad 2) ++
  "<" ++ "link" ++ "" ++ ">" ++ escapeCdata (baseUrl slug) ++ "" ++
  "</" ++ "link" ++ ">" ++ escapeCdata (pad 2) ++
  "<" ++ "description" ++ "" ++ ">" ++
    escapeCdata ("Aggregated rainfall, thunderstorm, and special forecasts from PAGASA "
      ++ pyUpper slug) ++ "" ++
  "</" ++ "description" ++ ">" ++ escapeCdata (pad 2) ++
  "<" ++ "lastBuildDate" ++ "" ++ ">"

def rssPost (items : List XElem) : String :=
  match items with
  | [] =>
    "" ++ "</" ++ "lastBuildDate" ++ ">" ++ escapeCdata (pad 1) ++ "" ++
    "</" ++ "channel" ++ ">" ++ escapeCdata (pad 0) ++ "" ++ "</" ++ "rss" ++ ">"
  | i :: is =>
    "" ++ "</" ++ "lastBuildDate" ++ ">" ++ escapeCdata (pad 2) ++
    serializeKids (indentKids 1 (XKids.cons i "" (kidsOfList is))) ++
    "</" ++ "channel" ++ ">" ++ escapeCdata (pad 0) ++ "" ++ "</" ++ "rss" ++ ">"

theorem rss_factor (slug : String) (now : Timestamp) (items : List XElem) :
    serializeDoc (indentTop (XElem.mk "rss" [("version", "2.0")] ""
      (XKids.cons (XElem.mk "channel" [] ""
        (kidsOfList ([chTitle slug, chLink slug, chDesc slug, chLbd now] ++ items)))
        "" XKids.nil)))
    = rssPre slug ++ escapeCdata (format_datetime now) ++ rssPost items := by
  have hb0 : blankStr "" = true := by decide
  have hb1 : blankStr (pad 1) = true := by decide
  have hb2 : blankStr (pad 2) = true := by decide
  have hp1 : (0 : Nat) + 1 = 1 := rfl
  have hp2 : (1 : Nat) + 1 = 2 := rfl
  have ht : (decide (("PAGASA " ++ pyUpper slug ++ " Advisories" : String) = "")) = false :=
    decide_eq_false (str_ne_empty_right _ (by decide))
  have hl : (decide ((baseUrl slug : String) = "")) = false :=
    decide_eq_false (by unfold baseUrl; exact str_ne_empty_left _ (by decide))
  have hd : (decide (("Aggregated rainfall, thunderstorm, and special forecasts from PAGASA "
      ++ pyUpper slug : String) = "")) = false :=
    decide_eq_false (str_ne_empty_left _ (by decide))
  have hf : (decide ((format_datetime now) = "")) = false :=
    decide_eq_false (format_datetime_ne_empty now)
  have hnil : ("" : String).data = [] := rfl
  cases items with
  | nil =>
    simp only [serializeDoc, indentTop, indentElem, indentKids, kidsOfList,
      List.cons_append, List.nil_append, XKids.isNil, XElem.kids, XElem.text,
      XElem.tag, XElem.attrs, chTitle, chLink, chDesc, chLbd, blankStr, hb0,
      hb1, hb2, hp1, hp2, if_true, if_false]
    have hps : (pyStrip "").isEmpty = true := by decide
    have hps1 : (pyStrip (pad 1)).isEmpty = true := by decide
    have hps2 : (pyStrip (pad 2)).isEmpty = true := by decide
    simp only [XElem.kids, XKids.isNil, hps, hps1, hps2, hp1, hp2, if_true,
      if_false, Bool.false_eq_true, serializeElem, serializeKids, serAttrs,
      XElem.text, XElem.tag, XElem.attrs, ht, hl, hd, hf, Bool.false_and,
      Bool.and_false, if_neg, if_pos, rssPost]
    apply String.ext
    simp only [rssPre, String.data_append, List.append_assoc, hnil,
      List.nil_append, List.append_nil]
  | cons i is =>
    simp only [serializeDoc, indentTop, indentElem, indentKids, kidsOfList,
      List.cons_append, List.nil_append, XKids.isNil, XElem.kids, XElem.text,
      XElem.tag, XElem.attrs, chTitle, chLink, chDesc, chLbd, blankStr, hb0,
      hb1, hb2, hp1, hp2, if_true, if_false]
    have hps : (pyStrip "").isEmpty = true := by decide
    have hps1 : (pyStrip (pad 1)).isEmpty = true := by decide
    have hps2 : (pyStrip (pad 2)).isEmpty = true := by decide
    simp only [XElem.kids, XKids.isNil, hps, hps1, hps2, hp1, hp2, if_true,
      if_false, Bool.false_eq_true, serializeElem, serializeKids, serAttrs,
      XElem.text, XElem.tag, XElem.attrs, ht, hl, hd, hf, Bool.false_and,
      Bool.and_false, if_neg, if_pos, rssPost]
    apply String.ext
    simp only [rssPre, String.data_append, List.append_assoc, hnil,
      List.nil_append, List.append_nil]

theorem dayAbbr_data (w : Fin 7) :
    ∃ a b c, (dayAbbr w).data = [a, b, c] ∧
      (["Mon", "Tue", "Wed", "Thu", "Fri", "Sat", "Sun"].contains
        (String.mk [a, b, c])) = true := by
  rcases w with ⟨v, hv⟩
  interval_cases v <;> exact ⟨_, _, _, rfl, by decide⟩

theorem digitChar_isDigit (n : Nat) : (digitChar (n % 10)).isDigit = true := by
  have h : n % 10 < 10 := Nat.mod_lt _ (by omega)
  generalize hg : n % 10 = k at h
  interval_cases k <;> decide

theorem monthAbbr_data (m : Nat) :
    ∃ a b c, (monthAbbr m).data = [a, b, c] ∧
      (["Jan", "Feb", "Mar", "Apr", "May", "Jun", "Jul", "Aug", "Sep", "Oct",
        "Nov", "Dec"].contains (String.mk [a, b, c])) = true := by
  unfold monthAbbr
  split <;> exact ⟨_, _, _, rfl, by decide⟩

theorem isRFC2822_format (t : Timestamp) :
    isRFC2822 (format_datetime t) = true := by
  obtain ⟨d1, d2, d3, hd, hdm⟩ := dayAbbr_data t.weekday
  obtain ⟨m1, m2, m3, hm, hmm⟩ := monthAbbr_data t.month
  have hdata : (format_datetime t).data
      = d1 :: d2 :: d3 :: ',' :: ' ' :: digitChar (t.day / 10 % 10)
        :: digitChar (t.day % 10) :: ' ' :: m1 :: m2 :: m3 :: ' '
        :: digitChar (t.year / 1000 % 10) :: digitChar (t.year / 100 % 10)
        :: digitChar (t.year / 10 % 10) :: digitChar (t.year % 10) :: ' '
        :: digitChar (t.hour / 10 % 10) :: digitChar (t.hour % 10) :: ':'
        :: digitChar (t.minute / 10 % 10) :: digitChar (t.minute % 10) :: ':'
        :: digitChar (t.second / 10 % 10) :: digitChar (t.second % 10)
        :: ' ' :: '+' :: '0' :: '0' :: '0' :: '0' :: [] := by
    unfold format_datetime fmt02 fmt04
    simp [String.data_append, hd, hm]
  rw [isRFC2822, hdata]
  simp only [List.all_cons, List.all_nil] at *
  simp [digitChar_isDigit]
  simp at hdm hmm
  exact ⟨hdm, hmm⟩

/-! ## Shared characterisation lemmas for the block branch -/

theorem blockLoop_length (category slug : String) (es : List HNode) :
    (blockLoop category slug es).length
      = (es.filter (fun e =>
          !(pyStrip (normalize_html (decodeContents e))).isEmpty)).length := by
  induction es with
  | nil => rw [blockLoop]; rfl
  | cons e rest ih =>
    rw [blockLoop]
    unfold processMarkup
    by_cases hc : (pyStrip (normalize_html (decodeContents e))).isEmpty = true
    · rw [if_pos hc]
      rw [List.filter_cons]
      rw [hc]
      simpa using ih
    · have hc' : (pyStrip (normalize_html (decodeContents e))).isEmpty = false :=
        Bool.eq_false_iff.mpr hc
      rw [if_neg (by rw [hc']; exact Bool.false_ne_true)]
      rw [List.filter_cons]
      rw [hc']
      simpa using ih

theorem descText_specialItem (category : String) (link : HNode) :
    descText (specialItem category link)
      = (if (specialHtml link).isEmpty then none
         else some (safe_fromstring (specialHtml link)).text) := by
  unfold specialItem descText linkKids
  cases hh : hrefOf link with
  | none =>
    dsimp only
    by_cases hsp : (specialHtml link).isEmpty = true
    · rw [if_pos hsp, if_pos hsp]
      rfl
    · rw [if_neg hsp, if_neg hsp]
      rfl
  | some hv =>
    dsimp only
    by_cases hv0 : hv.isEmpty = true
    · rw [if_pos hv0]
      by_cases hsp : (specialHtml link).isEmpty = true
      · rw [if_pos hsp, if_pos hsp]
        rfl
      · rw [if_neg hsp, if_neg hsp]
        rfl
    · rw [if_neg hv0]
      by_cases hsp : (specialHtml link).isEmpty = true
      · rw [if_pos hsp, if_pos hsp]
        rfl
      · rw [if_neg hsp, if_neg hsp]
        rfl

/-! ## Claims -/

/-- Claim C1: for body markup containing an unescaped bare ampersand,
which makes the strict XML parse attempt fail, `safe_fromstring` does
not raise (it is total) and takes the fallback path: the description
fragment's text segments are exactly the `<br>`-split of the
HTML-entity-decoded markup, and all inserted children are `br`
elements — so the description contains the decoded text. -/
theorem c1_bare_amp_fallback (s : String)
    (hamp : hasBareAmp s = true)
    (hfail : (xmlFromString ("<div>" ++ s ++ "</div>")).isNone = true) :
    fragSegments (descFromFrag (safe_fromstring s)) = splitBr (unescape s) ∧
    allTags "br" (descFromFrag (safe_fromstring s)).kids = true := by
  have hx : xmlFromString ("<div>" ++ s ++ "</div>") = none :=
    Option.isNone_iff_eq_none.mp hfail
  unfold safe_fromstring
  rw [hx]
  cases hsp : splitBr (unescape s) with
  | nil => exact absurd hsp (splitBr_ne_nil _)
  | cons p ps =>
    constructor
    · simp [descFromFrag, fragSegments, XElem.text, XElem.kids, tailsOf,
        tailsOf_brKids]
    · simp [descFromFrag, XElem.kids, allTags_brKids]

/-- Witness for C1 at the concrete malformed markup `"Tom & Jerry"`. -/
theorem c1_witness :
    hasBareAmp "Tom & Jerry" = true ∧
    (xmlFromString ("<div>" ++ "Tom & Jerry" ++ "</div>")).isNone = true ∧
    fragSegments (descFromFrag (safe_fromstring "Tom & Jerry"))
      = splitBr (unescape "Tom & Jerry") :=
  ⟨by decide, by decide,
    (c1_bare_amp_fallback "Tom & Jerry" (by decide) (by decide)).1⟩

/-- Counterexample to claim C2 as stated: `"&amp;"` is a well-formed
plain-text markup string with no tags, yet the description's text
content is the decoded `"&"`, not the input verbatim. -/
theorem c2_counterexample :
    ("&amp;" : String).data.all (fun c => !(c = '<')) = true ∧
    (xmlFromString ("<div>" ++ "&amp;" ++ "</div>")).isSome = true ∧
    (descFromFrag (safe_fromstring "&amp;")).text = "&" ∧
    ("&" : String) ≠ "&amp;" :=
  ⟨by decide, by decide, by decide, by decide⟩

/-- Claim C2 (amended): the sanitizer round trip is verbatim for plain
text that contains neither `<` nor `&`; an input containing character
references (such as `"&amp;"`) is entity-decoded instead. -/
theorem c2_roundtrip_plain (s : String)
    (h : s.data.all (fun c => !(c = '<' || c = '&')) = true) :
    (descFromFrag (safe_fromstring s)).text = s := by
  have hok : ∀ c ∈ s.data, c ≠ '<' ∧ c ≠ '&' := by
    intro c hc
    have h2 := List.all_eq_true.mp h c hc
    simp only [Bool.not_eq_eq_eq_not, Bool.not_true, Bool.or_eq_false_iff,
      decide_eq_false_iff_not] at h2
    exact h2
  have hu : unescape s = s := by
    unfold unescape
    rw [unescapeL_id (fun c hc => (hok c hc).2)]
  by_cases hcd : hasCdataEnd s.data = true
  · unfold safe_fromstring
    rw [xmlFromString_wrap_cdata hok hcd]
    rw [hu]
    have hsp : splitBr s = [s] := by
      unfold splitBr
      rw [splitBrL_single (fun c hc => (hok c hc).1)]
      rfl
    rw [hsp]
    rfl
  · have hcd' : hasCdataEnd s.data = false := Bool.eq_false_iff.mpr hcd
    unfold safe_fromstring
    rw [xmlFromString_wrap_plain hok hcd']
    rfl

/-- Witness for the amended C2 at the spec's example input. -/
theorem c2_witness :
    ("Heavy rain expected" : String).data.all
      (fun c => !(c = '<' || c = '&')) = true ∧
    (descFromFrag (safe_fromstring "Heavy rain expected")).text
      = "Heavy rain expected" :=
  ⟨by decide, c2_roundtrip_plain _ (by decide)⟩

/-- Counterexample to claim C3 as stated: for the block markup
`"No. 1</br>2"` the first regex match on the RAW markup captures `"1"`,
but the code searches the NORMALISED markup (`"No. 12"` after `</br>`
removal) and titles the item `"... No. 12 ..."`. -/
theorem c3_counterexample :
    findNumber "No. 1</br>2" = some "1" ∧
    (processMarkup "Rainfall Advisory" "visprsd" "No. 1</br>2").map itemTitle
      = some (some "Rainfall Advisory No. 12 #VISPRSD") ∧
    (some (some "Rainfall Advisory No. 12 #VISPRSD") : Option (Option String))
      ≠ some (some "Rainfall Advisory No. 1 #VISPRSD") :=
  ⟨by decide, by decide, by decide⟩

/-- Claim C3 (amended): the advisory number is the first regex match on
the block's NORMALISED markup; with a number the title is
`"<Category> No. <N> #<SLUG-UPPERCASE>"`, without one it is
`"<Category> #<SLUG-UPPERCASE>"`. -/
theorem c3_amended_title (category slug m : String)
    (h : (pyStrip (normalize_html m)).isEmpty = false) :
    (processMarkup category slug m).map itemTitle
      = some (some (match findNumber (normalize_html m) with
        | some n => category ++ " No. " ++ n ++ " #" ++ pyUpper slug
        | none => category ++ " #" ++ pyUpper slug)) := by
  unfold processMarkup
  rw [if_neg (by rw [h]; exact Bool.false_ne_true)]
  rfl

/-- Witness for the amended C3 at a concrete numbered block. -/
theorem c3_witness :
    (pyStrip (normalize_html "No. 3 issued")).isEmpty = false ∧
    (processMarkup "Rainfall Advisory" "visprsd" "No. 3 issued").map itemTitle
      = some (some "Rainfall Advisory No. 3 #VISPRSD") := by
  refine ⟨by decide, ?_⟩
  rw [c3_amended_title "Rainfall Advisory" "visprsd" "No. 3 issued" (by decide)]
  rfl

/-- Counterexample to claim C4 as stated: a rainfall container with ONE
direct child block (which itself nests another block) yields TWO
records, because the code iterates `find_all("div")` over all
descendants, not only direct children. -/
theorem c4_counterexample :
    (add_items c4page "rainfalls" "Rainfall Advisory" "visprsd").length = 2 ∧
    (directChildDivs c4cont).length = 1 ∧ (2 : Nat) ≠ 1 :=
  ⟨by decide, by decide, by decide⟩

/-- Claim C4 (amended): every DESCENDANT `div` block of the container
yields one record, except blocks whose normalised markup is blank. -/
theorem c4_amended (page : HForest) (divId category slug : String) (d : HNode)
    (hfind : findByIdF "div" divId page = some d)
    (hne : divId ≠ "special-forecasts") :
    (add_items page divId category slug).length
      = ((findAllTag "div" d).filter (fun b =>
          !(pyStrip (normalize_html (decodeContents b))).isEmpty)).length := by
  unfold add_items
  rw [hfind]
  dsimp only
  rw [if_neg hne]
  exact blockLoop_length category slug _

/-- Witness for the amended C4 on the nested-blocks fixture. -/
theorem c4_witness :
    findByIdF "div" "rainfalls" c4page = some c4cont ∧
    (add_items c4page "rainfalls" "Rainfall Advisory" "visprsd").length
      = ((findAllTag "div" c4cont).filter (fun b =>
          !(pyStrip (normalize_html (decodeContents b))).isEmpty)).length :=
  ⟨rfl, c4_amended c4page "rainfalls" "Rainfall Advisory" "visprsd" c4cont
    rfl (by decide)⟩

/-- Counterexample to claim C5 as stated: a block whose markup is a
single `br` tag has empty extracted text, yet it still contributes an
item, because the skip test is on the normalised MARKUP
(`"<br />"`, non-blank), not on the text. -/
theorem c5_counterexample :
    getTextStrip c5block = "" ∧
    decodeContents c5block = "<br/>" ∧
    (add_items c5page "rainfalls" "Rainfall Advisory" "visprsd").length = 1 ∧
    (1 : Nat) ≠ 0 :=
  ⟨by decide, by decide, by decide, by decide⟩

/-- Claim C5 (amended): a block is skipped exactly when its NORMALISED
MARKUP is empty after stripping; a tags-only block with a visible tag
such as `<br>` is still included. -/
theorem c5_amended (category slug m : String) :
    processMarkup category slug m = none ↔ pyStrip (normalize_html m) = "" := by
  unfold processMarkup
  by_cases hc : pyStrip (normalize_html m) = ""
  · rw [if_pos (by rw [hc]; rfl)]
    simp [hc]
  · have hc2 : (pyStrip (normalize_html m)).isEmpty = false := by
      rw [Bool.eq_false_iff]
      intro hq
      exact hc ((String.isEmpty_iff _).mp hq)
    rw [if_neg (by rw [hc2]; exact Bool.false_ne_true)]
    simp [hc]

/-- Counterexample to claim C6 as stated: a special-forecast span text
with an interior double space reaches the sanitizer unchanged — the
normalisation pass (which would collapse it to one space) is not
applied on the special-forecasts branch. -/
theorem c6_counterexample :
    (add_items c6page "special-forecasts" "Special Forecast" "visprsd").map descText
      = [some "a  b"] ∧
    normalize_html "a  b" = "a b" ∧ ("a  b" : String) ≠ "a b" :=
  ⟨by decide, by decide, by decide⟩

/-- Claim C6 (amended): `normalize_html` is applied to the body markup
before the sanitizer only for rainfall / thunderstorm records; a
special-forecast record's body (span texts joined with `<br />`) is
passed to the sanitizer without the normalisation pass. -/
theorem c6_amended (category slug m : String) (link : HNode)
    (h : (pyStrip (normalize_html m)).isEmpty = false) :
    (processMarkup category slug m).map descText
      = some (some (safe_fromstring (normalize_html m)).text) ∧
    descText (specialItem category link)
      = (if (specialHtml link).isEmpty then none
         else some (safe_fromstring (specialHtml link)).text) := by
  constructor
  · unfold processMarkup
    rw [if_neg (by rw [h]; exact Bool.false_ne_true)]
    rfl
  · exact descText_specialItem category link

/-- Witness for the amended C6 on a concrete block and the fixture
link. -/
theorem c6_witness :
    (pyStrip (normalize_html "No. 3 rain")).isEmpty = false ∧
    (processMarkup "Rainfall Advisory" "visprsd" "No. 3 rain").map descText
      = some (some (safe_fromstring (normalize_html "No. 3 rain")).text) ∧
    descText (specialItem "Special Forecast" c6link)
      = (if (specialHtml c6link).isEmpty then none
         else some (safe_fromstring (specialHtml c6link)).text) :=
  ⟨by decide,
    (c6_amended "Rainfall Advisory" "visprsd" "No. 3 rain" c6link (by decide)).1,
    (c6_amended "Rainfall Advisory" "visprsd" "No. 3 rain" c6link (by decide)).2⟩

/-- Claim C7: when none of the three containers is present, the feed
has zero items while the channel still carries exactly its four
metadata children — title, link, description and an RFC-2822
`lastBuildDate`. -/
theorem c7_empty_page (page : HForest) (slug : String) (now : Timestamp)
    (h1 : findByIdF "div" "rainfalls" page = none)
    (h2 : findByIdF "div" "thunderstorms" page = none)
    (h3 : findByIdF "div" "special-forecasts" page = none) :
    itemsOf page slug = [] ∧
    buildChannel page slug now = XElem.mk "channel" [] ""
      (kidsOfList [chTitle slug, chLink slug, chDesc slug, chLbd now]) ∧
    isRFC2822 (format_datetime now) = true := by
  have hi : itemsOf page slug = [] := by
    unfold itemsOf add_items
    rw [h1, h2, h3]
    rfl
  refine ⟨hi, ?_, isRFC2822_format now⟩
  unfold buildChannel
  rw [hi, List.append_nil]

/-- Witness for C7 on the empty document. -/
theorem c7_witness :
    findByIdF "div" "rainfalls" HForest.nil = none ∧
    itemsOf HForest.nil "visprsd" = [] ∧
    isRFC2822 (format_datetime ⟨2026, 10, 12, 1, 2, 3, (6 : Fin 7)⟩) = true :=
  ⟨rfl,
    (c7_empty_page HForest.nil "visprsd" ⟨2026, 10, 12, 1, 2, 3, (6 : Fin 7)⟩
      rfl rfl rfl).1,
    (c7_empty_page HForest.nil "visprsd" ⟨2026, 10, 12, 1, 2, 3, (6 : Fin 7)⟩
      rfl rfl rfl).2.2⟩

/-- Claim C8: a failed fetch (transport error or non-2xx status)
produces exactly one error line and no output file. -/
theorem c8_fetch_error (slug msg : String) (now : Timestamp) :
    (runMain slug (FetchResult.fetchError msg) now).file = none ∧
    (runMain slug (FetchResult.fetchError msg) now).printed
      = ["Error fetching data from " ++ baseUrl slug ++ ": " ++ msg] :=
  ⟨rfl, rfl⟩

/-- Claim C9: two runs on the same page and slug write the same file
name with byte-identical contents except the text inside the
`lastBuildDate` element — the bytes factor as a common prefix, the
escaped timestamp, and a common suffix. -/
theorem c9_determinism (page : HForest) (slug : String) (n1 n2 : Timestamp) :
    ∃ pre post,
      (runMain slug (FetchResult.ok page) n1).file
        = some (slug ++ ".rss", pre ++ escapeCdata (format_datetime n1) ++ post) ∧
      (runMain slug (FetchResult.ok page) n2).file
        = some (slug ++ ".rss", pre ++ escapeCdata (format_datetime n2) ++ post) := by
  have hfac : ∀ n : Timestamp, rssOutput page slug n
      = rssPre slug ++ escapeCdata (format_datetime n) ++ rssPost (itemsOf page slug) := by
    intro n
    unfold rssOutput buildRss buildChannel
    exact rss_factor slug n (itemsOf page slug)
  refine ⟨rssPre slug, rssPost (itemsOf page slug), ?_, ?_⟩
  · show some (slug ++ ".rss", rssOutput page slug n1) = _
    rw [hfac n1]
  · show some (slug ++ ".rss", rssOutput page slug n2) = _
    rw [hfac n2]

/-- Claim C10: `safe_fromstring` is total — it always yields a
`div`-tagged element, the split of the decoded text always has at
least one segment, and therefore the last-resort `else` branch (which
would assign the undecoded text) is unreachable: the result always
equals the else-free reformulation. -/
theorem c10_safe_fromstring_total (s : String) :
    (safe_fromstring s).tag = "div" ∧
    splitBr (unescape s) ≠ [] ∧
    safe_fromstring s =
      (match xmlFromString ("<div>" ++ s ++ "</div>") with
       | some root => root
       | none => XElem.mk "div" [] ((splitBr (unescape s)).headD (unescape s))
           (brKids (splitBr (unescape s)).tail)) := by
  refine ⟨?_, splitBr_ne_nil _, ?_⟩
  · unfold safe_fromstring
    cases hx : xmlFromString ("<div>" ++ s ++ "</div>") with
    | some root => exact xmlFromString_wrap_tag hx
    | none =>
      cases hsp : splitBr (unescape s) with
      | nil => exact absurd hsp (splitBr_ne_nil _)
      | cons p ps => rfl
  · unfold safe_fromstring
    cases hx : xmlFromString ("<div>" ++ s ++ "</div>") with
    | some root => rfl
    | none =>
      cases hsp : splitBr (unescape s) with
      | nil => exact absurd hsp (splitBr_ne_nil _)
      | cons p ps => simp [hsp]
